import Mathlib

set_option maxHeartbeats 1000000

/- Shallow embedding of the character-extraction engine of the
   romance-of-three-kingdoms wiki scraper.  Go strings are modelled as
   lists of characters, HTML td cells, tr rows and tables as the record
   types below, and each Go function is translated into a Lean function
   of the same name.  Where the two program variants differ, the second
   variant carries an Alt suffix. -/

abbrev Str := List Char

def lit (s : String) : Str := s.data

/-- Go strings.Contains: sub occurs as a contiguous substring of s. -/
def goContains : Str → Str → Bool
  | [], sub => sub.isEmpty
  | x :: t, sub => sub.isPrefixOf (x :: t) || goContains t sub

/-- Go strings.TrimSpace: drop whitespace from both ends. -/
def goTrim (s : Str) : Str :=
  ((s.dropWhile Char.isWhitespace).reverse.dropWhile Char.isWhitespace).reverse

def digitsVal (s : Str) : Nat :=
  s.foldl (fun acc c => acc * 10 + (c.toNat - Char.toNat '0')) 0

def parseDigits (s : Str) : Option Nat :=
  if s ≠ [] ∧ s.all Char.isDigit then some (digitsVal s) else none

/-- Go strconv.Atoi: optional sign followed by decimal digits. -/
def goAtoi : Str → Option Int
  | [] => none
  | '+' :: r => (parseDigits r).map (fun n => (n : Int))
  | '-' :: r => (parseDigits r).map (fun n => -(n : Int))
  | s => (parseDigits s).map (fun n => (n : Int))

/-- Go strings.Join. -/
def goJoin (sep : Str) : List Str → Str
  | [] => []
  | [x] => x
  | x :: y :: rest => x ++ sep ++ goJoin sep (y :: rest)

/-- Go strings.Cut with a single-character separator: the part before the
    first occurrence, the part after it, and a found flag. -/
def goCut : Str → Char → Str × Str × Bool
  | [], _ => ([], [], false)
  | x :: t, sep =>
    if x = sep then ([], t, true)
    else
      let p := goCut t sep
      (x :: p.1, p.2.1, p.2.2)

/-- Go strings.Split with a single-character separator. -/
def goSplit : Str → Char → List Str
  | [], _ => [[]]
  | x :: t, sep =>
    if x = sep then [] :: goSplit t sep
    else
      match goSplit t sep with
      | h :: r => (x :: h) :: r
      | [] => [[x]]

/-- A td cell: its concatenated text content and its style attribute
    value (empty when the attribute is absent). -/
structure Cell where
  text : Str
  style : Str
deriving DecidableEq, Repr

/-- A tr row: its full subtree text and its td cells. -/
structure Row where
  text : Str
  cells : List Cell
deriving DecidableEq, Repr

/-- A table: its full subtree text and its tr rows. -/
structure Table where
  text : Str
  rows : List Row
deriving DecidableEq, Repr

def dCell : Cell := ⟨[], []⟩

def mkCell (s st : String) : Cell := ⟨lit s, lit st⟩

/-- The Character record of main.go. -/
structure Character where
  Name : Str
  Reading : Str
  Azana : Str
  Leadership : Int
  Force : Int
  Intelligence : Int
  Politics : Int
  Charm : Int
  Talent : Str
  Interest : Str
  Greed : Str
  Loyalty : Int
  Personality : Str
  Strategy : Str
  DeathYear : Int
  DeathMinus13 : Int
  Tactics : Str
  Skills : Str
  Fame : Str
deriving DecidableEq, Repr

/-- The zero value Character of Go. -/
def char0 : Character :=
  ⟨[], [], [], 0, 0, 0, 0, 0, [], [], [], 0, [], [], 0, 0, [], [], []⟩

-- Rule tables (values of main.go; part_000 differs only in having a
-- five-element personality list).

def tacticCategories : List Str :=
  [lit "歩兵", lit "騎兵", lit "弓兵", lit "艦船", lit "軍略", lit "補助", lit "遁甲"]

def skillCategories : List Str :=
  [lit "任務", lit "智謀", lit "兵科", lit "軍事"]

def personalityTypes : List Str :=
  [lit "豪胆", lit "冷静", lit "剛胆", lit "沈着", lit "猪突", lit "温和", lit "臆病"]

def fameTypes : List Str :=
  [lit "無関心", lit "重視", lit "文武不問", lit "武名", lit "高名"]

def strategyTypes : List Str :=
  [lit "好戦", lit "普通", lit "積極", lit "消極", lit "私欲"]

def retryErrors : List Str := [lit "429", lit "Too Many Requests"]

def basicInfoHeaders : List Str := [lit "字", lit "没年"]

def abilityHeaders : List Str := [lit "統率", lit "武力"]

def statusHeaders : List Str := [lit "重視名声", lit "物欲", lit "戦略傾向"]

def talentHeaders : List Str := [lit "奇才"]

def tacticsHeaders : List Str := [lit "戦法"]

def skillsHeaders : List Str := [lit "特技"]

def containsAnyString (text : Str) (substrings : List Str) : Bool :=
  substrings.any (fun sub => goContains text sub)

def containsAllTexts (nodeText : Str) (texts : List Str) : Bool :=
  texts.all (fun t => goContains nodeText t)

def containsAnyTexts (nodeText : Str) (texts : List Str) : Bool :=
  texts.any (fun t => goContains nodeText t)

def hasStyle (n : Cell) (style : Str) : Bool := goContains n.style style

def hasStyleWidth (n : Cell) (width : Str) : Bool :=
  goContains n.style (lit "width:" ++ width)

def isTacticCategory (text : Str) : Bool := decide (text ∈ tacticCategories)

def isSkillCategory (text : Str) : Bool := decide (text ∈ skillCategories)

def cleanTacticSkillText (text : Str) : Str := goTrim (goCut text '(').1

-- Name and reading extraction, the two variants (the input is the text
-- of the first strong element).

/-- main.go variant: sequential two-cut parsing of Name(Reading). -/
def extractNameAndReading (c : Character) (text : Str) : Character :=
  let r1 := goCut text '('
  if r1.2.2 then
    let r2 := goCut r1.2.1 ')'
    if r2.2.2 then { c with Name := goTrim r1.1, Reading := goTrim r2.1 }
    else c
  else c

/-- part_000 variant: manual split with a both-parens-present guard. -/
def extractNameAndReadingAlt (c : Character) (text : Str) : Character :=
  if goContains text (lit "(") = false ∨ goContains text (lit ")") = false then c
  else
    let parts := goSplit text '('
    if parts.length < 2 then c
    else
      { c with Name := goTrim (parts.getD 0 []),
               Reading := goTrim ((goSplit (parts.getD 1 []) ')').getD 0 []) }

-- Ability extraction.

/-- extractAbilities: parse the first five cells as integers; commit all
    five fields only when every parse succeeds and the first value is
    strictly positive. -/
def extractAbilities (c : Character) (cells : List Cell) : Character :=
  if cells.length < 5 then c
  else
    match goAtoi (goTrim ((cells.getD 0 dCell).text)),
          goAtoi (goTrim ((cells.getD 1 dCell).text)),
          goAtoi (goTrim ((cells.getD 2 dCell).text)),
          goAtoi (goTrim ((cells.getD 3 dCell).text)),
          goAtoi (goTrim ((cells.getD 4 dCell).text)) with
    | some a, some b, some i, some p, some q =>
      if 0 < a then
        { c with Leadership := a, Force := b, Intelligence := i,
                 Politics := p, Charm := q }
      else c
    | _, _, _, _, _ => c

-- Personality and loyalty extraction.

/-- Inner loop of extractPersonalityAndLoyalty: first integer-parsable
    cell after the personality match supplies loyalty. -/
def loyaltyScan (c : Character) : List Cell → Character
  | [] => c
  | cl :: rest =>
    match goAtoi (goTrim cl.text) with
    | some v => { c with Loyalty := v }
    | none => loyaltyScan c rest

/-- Outer loop of extractPersonalityAndLoyalty: first cell in the
    personality vocabulary wins; the scan stops with that row position. -/
def persScan (c : Character) : List Cell → Character
  | [] => c
  | cl :: rest =>
    let t := goTrim cl.text
    if t ∈ personalityTypes then loyaltyScan { c with Personality := t } rest
    else persScan c rest

def extractPersonalityAndLoyalty (c : Character) (cells : List Cell) : Character :=
  if cells.length < 2 then c else persScan c cells

-- Fame, greed and strategy extraction.

def extractGreed (c : Character) (cells : List Cell) (startIndex : Nat) : Character :=
  if cells.length ≤ startIndex + 1 then c
  else if goTrim ((cells.getD (startIndex + 1) dCell).text) ≠ [] ∧
      goTrim ((cells.getD (startIndex + 1) dCell).text) ≠ lit "-" ∧
      goTrim ((cells.getD (startIndex + 1) dCell).text) ≠ lit "ー" then
    { c with Greed := goTrim ((cells.getD (startIndex + 1) dCell).text) }
  else c

/-- Loop of extractStrategy: k runs from startIndex+2 while
    k < length and k < startIndex+4, exactly as the Go for loop; the
    second bound is expressed as a remaining-iterations count, which is
    2 at the start of the loop. -/
def strategyLoop (c : Character) (cells : List Cell) (k : Nat) : Nat → Character
  | 0 => c
  | r + 1 =>
    if k < cells.length then
      let t := goTrim ((cells.getD k dCell).text)
      if t = [] ∨ t = lit "ー" then strategyLoop c cells (k + 1) r
      else if t ∈ strategyTypes then { c with Strategy := t }
      else if t = lit "-" then { c with Strategy := lit "-" }
      else strategyLoop c cells (k + 1) r
    else c

def extractStrategy (c : Character) (cells : List Cell) (startIndex : Nat) : Character :=
  strategyLoop c cells (startIndex + 2) 2

/-- Loop of extractStatusInfo: j indexes the current cell of the row and
    the final argument is the remaining suffix of the cell list, so that
    the pair (j, suffix) mirrors the Go range loop; the first cell in the
    fame vocabulary sets fame, then greed and strategy are taken relative
    to its index. -/
def fameLoop (c : Character) (cells : List Cell) : Nat → List Cell → Character
  | _, [] => c
  | j, cl :: rest =>
    let t := goTrim cl.text
    if t ∈ fameTypes then
      extractStrategy (extractGreed { c with Fame := t } cells j) cells j
    else fameLoop c cells (j + 1) rest

def extractStatusInfo (c : Character) (row : Row) : Character :=
  if containsAnyTexts row.text statusHeaders then c
  else if row.cells.length < 3 then c
  else fameLoop c row.cells 0 row.cells

def processTableRow (c : Character) (row : Row) : Character :=
  extractStatusInfo (extractPersonalityAndLoyalty (extractAbilities c row.cells) row.cells) row

def extractAbilitiesFromTable (c : Character) (t : Table) : Character :=
  t.rows.foldl processTableRow c

-- Basic info extraction.

/-- Row loop of extractBasicInfoFromTable: the first row with at least
    nine cells supplies the courtesy name and the death year, then the
    loop breaks. -/
def basicLoop (c : Character) : List Row → Character
  | [] => c
  | r :: rest =>
    if r.cells.length < 9 then basicLoop c rest
    else
      let c1 := { c with Azana := goTrim ((r.cells.getD 1 dCell).text) }
      match goAtoi (goTrim ((r.cells.getD 6 dCell).text)) with
      | some y => { c1 with DeathYear := y, DeathMinus13 := y - 13 }
      | none => c1

def extractBasicInfoFromTable (c : Character) (t : Table) : Character :=
  basicLoop c t.rows

-- Talent extraction.

def goldInRow : List Cell → Option Str
  | [] => none
  | cl :: rest =>
    if hasStyle cl (lit "background-color:gold") then some cl.text
    else goldInRow rest

def findGoldCell : List Row → Option Str
  | [] => none
  | r :: rest =>
    match goldInRow r.cells with
    | some t => some t
    | none => findGoldCell rest

/-- part_000 variant: take the first gold-styled cell of the table,
    with no keyword guard. -/
def extractTalentFromTableAlt (c : Character) (t : Table) : Character :=
  match findGoldCell t.rows with
  | some txt => { c with Talent := goTrim txt }
  | none => c

def isTalentTable (t : Table) : Bool :=
  goContains t.text (lit "奇才") && goContains t.text (lit "効果")

/-- main.go variant: identical scan, but guarded by isTalentTable. -/
def extractTalentFromTable (c : Character) (t : Table) : Character :=
  if isTalentTable t then extractTalentFromTableAlt c t else c

/-- Fallback loop of extractFromTables in main.go: try every table,
    stopping as soon as Talent is non-empty. -/
def talentFallback (c : Character) : List Table → Character
  | [] => c
  | t :: ts =>
    if (extractTalentFromTable c t).Talent ≠ [] then extractTalentFromTable c t
    else talentFallback (extractTalentFromTable c t) ts

/-- Fallback loop of extractFromTables in part_000. -/
def talentFallbackAlt (c : Character) : List Table → Character
  | [] => c
  | t :: ts =>
    if (extractTalentFromTableAlt c t).Talent ≠ [] then extractTalentFromTableAlt c t
    else talentFallbackAlt (extractTalentFromTableAlt c t) ts

/-- Classification switch of extractFromTables in main.go (the ability
    branch additionally attempts talent extraction on the same table). -/
def tablesStep (c : Character) (t : Table) : Character :=
  if containsAllTexts t.text basicInfoHeaders then extractBasicInfoFromTable c t
  else if containsAllTexts t.text abilityHeaders then
    extractTalentFromTable (extractAbilitiesFromTable c t) t
  else if containsAnyTexts t.text talentHeaders then extractTalentFromTable c t
  else c

def extractFromTables (c : Character) (tables : List Table) : Character :=
  if (tables.foldl tablesStep c).Talent = ([] : Str) then
    talentFallback (tables.foldl tablesStep c) tables
  else tables.foldl tablesStep c

/-- Classification switch of extractFromTables in part_000. -/
def tablesStepAlt (c : Character) (t : Table) : Character :=
  if containsAllTexts t.text basicInfoHeaders then extractBasicInfoFromTable c t
  else if containsAllTexts t.text abilityHeaders then extractAbilitiesFromTable c t
  else if containsAnyTexts t.text talentHeaders then extractTalentFromTableAlt c t
  else c

def extractFromTablesAlt (c : Character) (tables : List Table) : Character :=
  if (tables.foldl tablesStepAlt c).Talent = ([] : Str) then
    talentFallbackAlt (tables.foldl tablesStepAlt c) tables
  else tables.foldl tablesStepAlt c

-- Tactics and skills extraction.

def extractFromSkillTable (t : Table) (isCategory : Str → Bool) : List Str :=
  t.rows.foldl
    (fun items row =>
      row.cells.foldl
        (fun items cl =>
          if hasStyleWidth cl (lit "70px") then
            let text := cleanTacticSkillText (goTrim cl.text)
            if text ≠ [] ∧ isCategory text = false then items ++ [text]
            else items
          else items)
        items)
    []

/-- Classification switch of extractTacticsAndSkills: the tactics case
    is tested before the skills case, and the matching category variable
    is reassigned from the current table. -/
def tacticsSkillsStep (acc : List Str × List Str) (t : Table) : List Str × List Str :=
  if containsAnyTexts t.text tacticsHeaders then
    (extractFromSkillTable t isTacticCategory, acc.2)
  else if containsAnyTexts t.text skillsHeaders then
    (acc.1, extractFromSkillTable t isSkillCategory)
  else acc

def extractTacticsAndSkills (tables : List Table) : Str × Str :=
  let p := tables.foldl tacticsSkillsStep ([], [])
  (goJoin (lit ", ") p.1, goJoin (lit ", ") p.2)

-- Fetch with retry (the per-attempt outcome is supplied as a function
-- from the attempt number, abstracting the HTTP layer).

def maxRetries : Nat := 3

def baseDelay : Nat := 2

def exhaustedMsg : Str := lit "最大リトライ回数に達しました"

def shouldRetry (e : Str) (attempt maxR : Nat) : Bool :=
  containsAnyString e retryErrors && decide (attempt < maxR - 1)

/-- The retry loop of extractCharacterInfoWithRetry; remaining counts
    the loop iterations still allowed (maxRetries - attempt), and the
    second result component records the backoff sleeps performed, in
    order.  When the loop runs out of iterations the distinct exhausted
    error of the Go source is returned. -/
def retryLoop (fetch : Nat → Except Str Character) (attempt : Nat)
    (sleeps : List Nat) : Nat → Except Str Character × List Nat
  | 0 => (.error exhaustedMsg, sleeps)
  | remaining + 1 =>
    match fetch attempt with
    | .ok ch => (.ok ch, sleeps)
    | .error e =>
      if shouldRetry e attempt maxRetries then
        retryLoop fetch (attempt + 1) (sleeps ++ [baseDelay * (attempt + 1)]) remaining
      else (.error e, sleeps)

def extractCharacterInfoWithRetry (fetch : Nat → Except Str Character) :
    Except Str Character × List Nat :=
  retryLoop fetch 0 [] maxRetries

-- Batch orchestration (per-item outcomes supplied as a list).

def isRateLimitError (e : Str) : Bool :=
  containsAnyString e retryErrors || goContains e exhaustedMsg

/-- The processing loop of the batch driver: a rate-limit-classified
    error aborts the whole batch (second component), any other error is
    skipped, successes are collected in order. -/
def processItems : List (Except Str Character) → List Character × Option Str
  | [] => ([], none)
  | .ok ch :: rest =>
    let p := processItems rest
    (ch :: p.1, p.2)
  | .error e :: rest =>
    if isRateLimitError e then ([], some e) else processItems rest

-- Spec-side definitions used to state the claims.

/-- Formalisation of the claim wording for the strategy scan: skip empty
    and em-dash texts, commit a vocabulary member or a literal hyphen,
    keep the previous value otherwise. -/
def claimStrategyScan (old : Str) : List Str → Str
  | [] => old
  | t :: rest =>
    if t = [] ∨ t = lit "ー" then claimStrategyScan old rest
    else if t ∈ strategyTypes then t
    else if t = lit "-" then lit "-"
    else claimStrategyScan old rest

/-- First table whose leading gold-styled cell has non-empty trimmed
    text (selector used to state the amended fallback claim). -/
def firstGoldTalent : List Table → Option Str
  | [] => none
  | t :: ts =>
    match findGoldCell t.rows with
    | some s => if goTrim s ≠ [] then some (goTrim s) else firstGoldTalent ts
    | none => firstGoldTalent ts

/-- Same selector restricted to tables passing isTalentTable (the main.go
    fallback behaviour). -/
def firstGuardedGoldTalent : List Table → Option Str
  | [] => none
  | t :: ts =>
    if isTalentTable t then
      match findGoldCell t.rows with
      | some s => if goTrim s ≠ [] then some (goTrim s) else firstGuardedGoldTalent ts
      | none => firstGuardedGoldTalent ts
    else firstGuardedGoldTalent ts

/-- Last table classified as tactics (selector for the amended tactics
    claim). -/
def lastTacticsTable : List Table → Option Table
  | [] => none
  | t :: ts =>
    match lastTacticsTable ts with
    | some u => some u
    | none => if containsAnyTexts t.text tacticsHeaders then some t else none

/-- Last table classified as skills (not matching the tactics case). -/
def lastSkillsTable : List Table → Option Table
  | [] => none
  | t :: ts =>
    match lastSkillsTable ts with
    | some u => some u
    | none =>
      if containsAnyTexts t.text tacticsHeaders then none
      else if containsAnyTexts t.text skillsHeaders then some t else none

-- Concrete example inputs.

def err429 : Str := lit "429 Too Many Requests"

def tGold : Table :=
  ⟨lit "王佐", [⟨lit "王佐", [⟨lit "王佐", lit "background-color:gold"⟩]⟩]⟩

def tacticsTableA : Table :=
  ⟨lit "戦法", [⟨lit "奮戦", [⟨lit "奮戦", lit "width:70px"⟩]⟩]⟩

def tacticsTableB : Table :=
  ⟨lit "戦法", [⟨lit "連弩", [⟨lit "連弩", lit "width:70px"⟩]⟩]⟩

def bothKeywordsTable : Table :=
  ⟨lit "戦法特技", [⟨lit "連弩", [⟨lit "連弩", lit "width:70px"⟩]⟩]⟩

-- ===================================================================
-- Helper lemmas
-- ===================================================================

lemma getD_default {α : Type} (l : List α) (n : Nat) (d : α)
    (h : l.length ≤ n) : l.getD n d = d := by
  induction l generalizing n with
  | nil => simp [List.getD]
  | cons x t ih =>
    cases n with
    | zero => simp at h
    | succ m =>
      simp only [List.getD_cons_succ]
      exact ih m (by simpa using h)

lemma tacticsSkillsStep_snd (acc : List Str × List Str) (t : Table)
    (h : containsAnyTexts t.text skillsHeaders = true →
      containsAnyTexts t.text tacticsHeaders = true) :
    (tacticsSkillsStep acc t).2 = acc.2 := by
  unfold tacticsSkillsStep
  by_cases h1 : containsAnyTexts t.text tacticsHeaders
  · simp [h1]
  · have h2 : containsAnyTexts t.text skillsHeaders = false := by
      cases h3 : containsAnyTexts t.text skillsHeaders
      · rfl
      · exact absurd (h h3) h1
    simp [h1, h2]

lemma foldl_tacticsSkillsStep_snd (tables : List Table)
    (acc : List Str × List Str)
    (h : ∀ t ∈ tables, containsAnyTexts t.text skillsHeaders = true →
      containsAnyTexts t.text tacticsHeaders = true) :
    (tables.foldl tacticsSkillsStep acc).2 = acc.2 := by
  induction tables generalizing acc with
  | nil => rfl
  | cons t ts ih =>
    simp only [List.foldl_cons]
    rw [ih (tacticsSkillsStep acc t) (fun u hu => h u (by simp [hu]))]
    exact tacticsSkillsStep_snd acc t (h t (by simp))

lemma strategyLoop_spec (c : Character) (cells : List Cell) :
    ∀ (r k : Nat), strategyLoop c cells k r =
      { c with Strategy := (claimStrategyScan c.Strategy
          (((cells.drop k).take r).map (fun cl => goTrim cl.text))) } := by
  intro r
  induction r with
  | zero =>
    intro k
    simp [strategyLoop, claimStrategyScan]
  | succ r ih =>
    intro k
    by_cases hk : k < cells.length
    · have hdrop : cells.drop k = cells[k] :: cells.drop (k + 1) :=
        List.drop_eq_getElem_cons hk
      have hgd : cells.getD k dCell = cells[k] := by
        rw [List.getD_eq_getElem?_getD, List.getElem?_eq_getElem hk]
        rfl
      rw [hdrop]
      simp only [List.take_succ_cons, List.map_cons]
      simp only [strategyLoop, if_pos hk, hgd]
      by_cases h1 : goTrim (cells[k]).text = [] ∨ goTrim (cells[k]).text = lit "ー"
      · simp only [claimStrategyScan, if_pos h1, ih (k + 1)]
      · simp only [claimStrategyScan, if_neg h1]
        by_cases h2 : goTrim (cells[k]).text ∈ strategyTypes
        · simp [h2]
        · simp only [if_neg h2]
          by_cases h3 : goTrim (cells[k]).text = lit "-"
          · simp [h3]
          · simp only [if_neg h3, ih (k + 1)]
    · have hdrop : cells.drop k = [] := List.drop_eq_nil_of_le (by omega)
      rw [hdrop]
      simp [strategyLoop, hk, claimStrategyScan]

lemma loyaltyScan_shape (cells : List Cell) :
    ∀ c, ∃ l, loyaltyScan c cells = { c with Loyalty := l } := by
  induction cells with
  | nil => exact fun c => ⟨c.Loyalty, rfl⟩
  | cons cl rest ih =>
    intro c
    cases h : goAtoi (goTrim cl.text) with
    | some v => exact ⟨v, by simp [loyaltyScan, h]⟩
    | none =>
      obtain ⟨l, hl⟩ := ih c
      exact ⟨l, by simp [loyaltyScan, h, hl]⟩

lemma persScan_shape (cells : List Cell) :
    ∀ c, ∃ p l, persScan c cells = { c with Personality := p, Loyalty := l } := by
  induction cells with
  | nil => exact fun c => ⟨c.Personality, c.Loyalty, rfl⟩
  | cons cl rest ih =>
    intro c
    by_cases h : goTrim cl.text ∈ personalityTypes
    · obtain ⟨l, hl⟩ := loyaltyScan_shape rest { c with Personality := goTrim cl.text }
      exact ⟨goTrim cl.text, l, by simp [persScan, h, hl]⟩
    · obtain ⟨p, l, hp⟩ := ih c
      exact ⟨p, l, by simp [persScan, h, hp]⟩

lemma epl_shape (c : Character) (cells : List Cell) :
    ∃ p l, extractPersonalityAndLoyalty c cells =
      { c with Personality := p, Loyalty := l } := by
  unfold extractPersonalityAndLoyalty
  by_cases h : cells.length < 2
  · exact ⟨c.Personality, c.Loyalty, by simp [h]⟩
  · simpa [h] using persScan_shape cells c

lemma extractGreed_shape (c : Character) (cells : List Cell) (j : Nat) :
    ∃ g, extractGreed c cells j = { c with Greed := g } := by
  unfold extractGreed
  split_ifs
  · exact ⟨c.Greed, rfl⟩
  · exact ⟨_, rfl⟩
  · exact ⟨c.Greed, rfl⟩

lemma extractStrategy_shape (c : Character) (cells : List Cell) (j : Nat) :
    ∃ s, extractStrategy c cells j = { c with Strategy := s } :=
  ⟨_, by rw [extractStrategy, strategyLoop_spec]⟩

lemma fameLoop_shape (cells : List Cell) (suffix : List Cell) :
    ∀ j c, ∃ f g s, fameLoop c cells j suffix =
      { c with Fame := f, Greed := g, Strategy := s } := by
  induction suffix with
  | nil => exact fun j c => ⟨c.Fame, c.Greed, c.Strategy, rfl⟩
  | cons cl rest ih =>
    intro j c
    by_cases h : goTrim cl.text ∈ fameTypes
    · obtain ⟨g, hg⟩ := extractGreed_shape { c with Fame := goTrim cl.text } cells j
      obtain ⟨s, hs⟩ :=
        extractStrategy_shape (extractGreed { c with Fame := goTrim cl.text } cells j) cells j
      refine ⟨goTrim cl.text, g, s, ?_⟩
      simp only [fameLoop, if_pos h]
      rw [hs, hg]
    · obtain ⟨f, g, s, hf⟩ := ih (j + 1) c
      exact ⟨f, g, s, by simp [fameLoop, h, hf]⟩

lemma statusInfo_shape (c : Character) (row : Row) :
    ∃ f g s, extractStatusInfo c row =
      { c with Fame := f, Greed := g, Strategy := s } := by
  unfold extractStatusInfo
  split_ifs with h1 h2
  · exact ⟨c.Fame, c.Greed, c.Strategy, rfl⟩
  · exact ⟨c.Fame, c.Greed, c.Strategy, rfl⟩
  · exact fameLoop_shape row.cells row.cells 0 c

lemma extractAbilities_shape (c : Character) (cells : List Cell) :
    extractAbilities c cells = c ∨
      ∃ a b i p q, 0 < a ∧ extractAbilities c cells =
        { c with Leadership := a, Force := b, Intelligence := i,
                 Politics := p, Charm := q } := by
  unfold extractAbilities
  by_cases h : cells.length < 5
  · left
    simp [h]
  · simp only [if_neg h]
    cases h0 : goAtoi (goTrim ((cells.getD 0 dCell).text)) with
    | none => left; simp [h0]
    | some a =>
      cases h1 : goAtoi (goTrim ((cells.getD 1 dCell).text)) with
      | none => left; simp [h0, h1]
      | some b =>
        cases h2 : goAtoi (goTrim ((cells.getD 2 dCell).text)) with
        | none => left; simp [h0, h1, h2]
        | some i =>
          cases h3 : goAtoi (goTrim ((cells.getD 3 dCell).text)) with
          | none => left; simp [h0, h1, h2, h3]
          | some p =>
            cases h4 : goAtoi (goTrim ((cells.getD 4 dCell).text)) with
            | none => left; simp [h0, h1, h2, h3, h4]
            | some q =>
              by_cases ha : 0 < a
              · right
                exact ⟨a, b, i, p, q, ha, by simp [h0, h1, h2, h3, h4, ha]⟩
              · left
                simp [h0, h1, h2, h3, h4, ha]

/-- The all-or-nothing state of the five numeric ability fields. -/
abbrev allAbilitiesZero (c : Character) : Prop :=
  c.Leadership = 0 ∧ c.Force = 0 ∧ c.Intelligence = 0 ∧ c.Politics = 0 ∧ c.Charm = 0

lemma processTableRow_inv (row : Row) (c : Character)
    (h : allAbilitiesZero c ∨ 0 < c.Leadership) :
    allAbilitiesZero (processTableRow c row) ∨
      0 < (processTableRow c row).Leadership := by
  unfold processTableRow
  obtain ⟨p, l, hpl⟩ := epl_shape (extractAbilities c row.cells) row.cells
  obtain ⟨f, g, s, hfgs⟩ :=
    statusInfo_shape (extractPersonalityAndLoyalty (extractAbilities c row.cells) row.cells) row
  rw [hfgs, hpl]
  rcases extractAbilities_shape c row.cells with h1 | ⟨a, b, i, p', q, ha, h1⟩
  · rw [h1]
    rcases h with hz | hl
    · left
      obtain ⟨z1, z2, z3, z4, z5⟩ := hz
      exact ⟨by simpa using z1, by simpa using z2, by simpa using z3,
        by simpa using z4, by simpa using z5⟩
    · right
      simpa using hl
  · right
    rw [h1]
    simpa using ha

lemma extractAbilitiesFromTable_inv (rows : List Row) :
    ∀ c, (allAbilitiesZero c ∨ 0 < c.Leadership) →
      allAbilitiesZero (rows.foldl processTableRow c) ∨
        0 < (rows.foldl processTableRow c).Leadership := by
  induction rows with
  | nil => exact fun c h => h
  | cons r rest ih =>
    intro c h
    exact ih (processTableRow c r) (processTableRow_inv r c h)

/-- The commit condition of the claim for an ability row: at least five
    cells, the first five all parse as integers, and the first parsed
    value is strictly positive. -/
abbrev abilityRowOK (cells : List Cell) : Prop :=
  5 ≤ cells.length ∧
  (∀ k, k < 5 → (goAtoi (goTrim ((cells.getD k dCell).text))).isSome = true) ∧
  0 < (goAtoi (goTrim ((cells.getD 0 dCell).text))).getD 0

lemma loyaltyScan_none (post : List Cell)
    (h : ∀ y ∈ post, goAtoi (goTrim y.text) = none) :
    ∀ c, loyaltyScan c post = c := by
  induction post with
  | nil => exact fun c => rfl
  | cons y rest ih =>
    intro c
    have hy : goAtoi (goTrim y.text) = none := h y (by simp)
    simp only [loyaltyScan, hy]
    exact ih (fun z hz => h z (by simp [hz])) c

lemma persScan_first (cl : Cell) (post : List Cell)
    (hcl : goTrim cl.text ∈ personalityTypes)
    (hpost : ∀ y ∈ post, goAtoi (goTrim y.text) = none) :
    ∀ (pre : List Cell), (∀ x ∈ pre, goTrim x.text ∉ personalityTypes) →
      ∀ c, persScan c (pre ++ cl :: post) =
        { c with Personality := goTrim cl.text } := by
  intro pre
  induction pre with
  | nil =>
    intro _ c
    simp only [List.nil_append, persScan, if_pos hcl]
    exact loyaltyScan_none post hpost _
  | cons x rest ih =>
    intro hpre c
    have hx : goTrim x.text ∉ personalityTypes := hpre x (by simp)
    simp only [List.cons_append, persScan, if_neg hx]
    exact ih (fun z hz => hpre z (by simp [hz])) c

-- ===================================================================
-- Claim theorems
-- ===================================================================

/-- C1 (code bug): with three consecutive rate-limited attempts the code
    performs exactly the two backoff sleeps baseDelay*1 and baseDelay*2
    but then returns the third 429 error itself, never the distinct
    exhausted error the claim describes (that return is unreachable);
    a rate-limited attempt followed by a success returns the character
    after exactly one sleep of baseDelay*1, as claimed. -/
theorem retry_rate_limited_attempts_behaviour :
    extractCharacterInfoWithRetry (fun _ => .error err429) =
      (.error err429, [baseDelay * 1, baseDelay * 2])
    ∧ (extractCharacterInfoWithRetry (fun _ => .error err429)).1 ≠
      Except.error exhaustedMsg
    ∧ extractCharacterInfoWithRetry
        (fun n => if n = 0 then .error err429 else .ok char0) =
      (.ok char0, [baseDelay * 1]) := by
  refine ⟨rfl, ?_, rfl⟩
  have h1 : (extractCharacterInfoWithRetry (fun _ => .error err429)).1 =
      Except.error err429 := rfl
  rw [h1]
  intro h
  have h2 : err429 = exhaustedMsg := by injection h
  exact absurd h2 (by decide)

/-- C5: an error whose text contains a rate-limit marker (429 or
    Too Many Requests) or the retries-exhausted message aborts the whole
    batch at that item; any other error is skipped, contributing no
    record, and processing continues with the remaining items; a
    success contributes its record. -/
theorem batch_error_policy :
    (∀ e rest,
      (goContains e (lit "429") || goContains e (lit "Too Many Requests") ||
        goContains e exhaustedMsg) = true →
      processItems (Except.error e :: rest) = ([], some e))
    ∧ (∀ e rest,
      (goContains e (lit "429") || goContains e (lit "Too Many Requests") ||
        goContains e exhaustedMsg) = false →
      processItems (Except.error e :: rest) = processItems rest)
    ∧ (∀ ch rest, processItems (Except.ok ch :: rest) =
        (ch :: (processItems rest).1, (processItems rest).2)) := by
  have hrl : ∀ e : Str, isRateLimitError e =
      (goContains e (lit "429") || goContains e (lit "Too Many Requests") ||
        goContains e exhaustedMsg) := by
    intro e
    simp [isRateLimitError, containsAnyString, retryErrors, List.any, Bool.or_assoc]
  refine ⟨?_, ?_, ?_⟩
  · intro e rest h
    simp [processItems, hrl e, h]
  · intro e rest h
    simp [processItems, hrl e, h]
  · intro ch rest
    rfl

/-- Witness for C5 at concrete inputs: a rate-limited error aborts, an
    ordinary HTTP error is skipped. -/
theorem batch_error_policy_witness :
    processItems [Except.error err429, Except.ok char0] = ([], some err429)
    ∧ processItems [Except.error (lit "HTTPエラー: 500 Internal Server Error"),
        Except.ok char0] = processItems [Except.ok char0] :=
  ⟨batch_error_policy.1 err429 [Except.ok char0] (by decide),
   batch_error_policy.2.1 (lit "HTTPエラー: 500 Internal Server Error")
     [Except.ok char0] (by decide)⟩

/-- C8: greed is assigned the trimmed text of the cell after fame
    exactly when that text is not empty, not a hyphen and not an
    em-dash; each of the three values suppresses assignment, any other
    string is kept verbatim. -/
theorem greed_suppression :
    (∀ c cells startIndex,
      extractGreed c cells startIndex =
        (let t := goTrim ((cells.getD (startIndex + 1) dCell).text)
         if t ≠ [] ∧ t ≠ lit "-" ∧ t ≠ lit "ー" then { c with Greed := t }
         else c))
    ∧ (extractGreed char0 [mkCell "高名" "", mkCell "" ""] 0).Greed = []
    ∧ (extractGreed char0 [mkCell "高名" "", mkCell "-" ""] 0).Greed = []
    ∧ (extractGreed char0 [mkCell "高名" "", mkCell "ー" ""] 0).Greed = []
    ∧ (extractGreed char0 [mkCell "高名" "", mkCell "高" ""] 0).Greed = lit "高" := by
  refine ⟨?_, by decide, by decide, by decide, by decide⟩
  intro c cells startIndex
  unfold extractGreed
  by_cases h : cells.length ≤ startIndex + 1
  · rw [if_pos h, getD_default cells (startIndex + 1) dCell h]
    simp [dCell, goTrim]
  · rw [if_neg h]

/-- C9: a table whose text contains both the tactics and the skills
    header keyword is handled by the tactics case only: the step leaves
    the skills accumulator untouched, and a document in which every
    skills-keyword table also carries the tactics keyword produces an
    empty Skills output. -/
theorem tactics_shadows_skills :
    (∀ acc t, containsAnyTexts t.text tacticsHeaders = true →
      containsAnyTexts t.text skillsHeaders = true →
      tacticsSkillsStep acc t = (extractFromSkillTable t isTacticCategory, acc.2))
    ∧ (∀ tables,
      (∀ t ∈ tables, containsAnyTexts t.text skillsHeaders = true →
        containsAnyTexts t.text tacticsHeaders = true) →
      (extractTacticsAndSkills tables).2 = []) := by
  constructor
  · intro acc t h1 _
    simp [tacticsSkillsStep, h1]
  · intro tables h
    have h2 := foldl_tacticsSkillsStep_snd tables ([], []) h
    simp [extractTacticsAndSkills, h2, goJoin]

/-- Witness for C9: a table containing both 戦法 and 特技 feeds the
    tactics side only, and alone in a document it yields empty Skills. -/
theorem tactics_shadows_skills_witness :
    tacticsSkillsStep ([], []) bothKeywordsTable =
      (extractFromSkillTable bothKeywordsTable isTacticCategory, [])
    ∧ (extractTacticsAndSkills [bothKeywordsTable]).2 = [] :=
  ⟨tactics_shadows_skills.1 ([], []) bothKeywordsTable (by decide) (by decide),
   tactics_shadows_skills.2 [bothKeywordsTable]
     (fun t ht _ => by
       simp at ht
       subst ht
       decide)⟩

-- Example rows and tables for the ability claims.

def row120 : List Cell :=
  [mkCell "120" "", mkCell "95" "", mkCell "60" "", mkCell "70" "", mkCell "80" ""]

def rowZero : List Cell :=
  [mkCell "0" "", mkCell "95" "", mkCell "60" "", mkCell "70" "", mkCell "80" ""]

def rowBad : List Cell :=
  [mkCell "12" "", mkCell "x" "", mkCell "60" "", mkCell "70" "", mkCell "80" ""]

def abilityTableEx : Table := ⟨lit "統率武力", [⟨lit "", row120⟩]⟩

/-- C7: the strategy scan of extractStrategy examines exactly the two
    cells at startIndex+2 and startIndex+3, skipping empty and em-dash
    texts, committing the first vocabulary member or literal hyphen and
    stopping there, and skipping any other non-empty text; on the row
    fame, greed, em-dash, 好戦 the strategy resolves to 好戦. -/
theorem strategy_scan_window :
    (∀ c cells startIndex, extractStrategy c cells startIndex =
      { c with Strategy := (claimStrategyScan c.Strategy
          (((cells.drop (startIndex + 2)).take 2).map (fun cl => goTrim cl.text))) })
    ∧ (extractStrategy char0
        [mkCell "高名" "", mkCell "高" "", mkCell "ー" "", mkCell "好戦" ""] 0).Strategy
      = lit "好戦" := by
  refine ⟨?_, by decide⟩
  intro c cells startIndex
  exact strategyLoop_spec c cells 2 (startIndex + 2)

/-- C2: the five ability fields are committed from the first five cells
    of a row exactly when all five parse as integers and the first value
    is strictly positive; otherwise the record is unchanged; hence over a
    whole ability table the five fields are all zero or committed with a
    strictly positive leadership. -/
theorem abilities_all_or_nothing :
    (∀ c cells, abilityRowOK cells →
      extractAbilities c cells =
        { c with
            Leadership := ((goAtoi (goTrim ((cells.getD 0 dCell).text))).getD 0),
            Force := ((goAtoi (goTrim ((cells.getD 1 dCell).text))).getD 0),
            Intelligence := ((goAtoi (goTrim ((cells.getD 2 dCell).text))).getD 0),
            Politics := ((goAtoi (goTrim ((cells.getD 3 dCell).text))).getD 0),
            Charm := ((goAtoi (goTrim ((cells.getD 4 dCell).text))).getD 0) })
    ∧ (∀ c cells, ¬ abilityRowOK cells → extractAbilities c cells = c)
    ∧ (∀ t c, allAbilitiesZero c →
        allAbilitiesZero (extractAbilitiesFromTable c t) ∨
          0 < (extractAbilitiesFromTable c t).Leadership) := by
  refine ⟨?_, ?_, ?_⟩
  · rintro c cells ⟨hlen, hsome, hpos⟩
    have h5 : ¬ cells.length < 5 := by omega
    obtain ⟨a, h0⟩ := Option.isSome_iff_exists.mp (hsome 0 (by omega))
    obtain ⟨b, h1⟩ := Option.isSome_iff_exists.mp (hsome 1 (by omega))
    obtain ⟨i, h2⟩ := Option.isSome_iff_exists.mp (hsome 2 (by omega))
    obtain ⟨p, h3⟩ := Option.isSome_iff_exists.mp (hsome 3 (by omega))
    obtain ⟨q, h4⟩ := Option.isSome_iff_exists.mp (hsome 4 (by omega))
    rw [h0] at hpos
    simp only [Option.getD_some] at hpos
    simp only [extractAbilities, if_neg h5, h0, h1, h2, h3, h4]
    simp [hpos]
  · intro c cells hno
    by_cases h5 : cells.length < 5
    · simp [extractAbilities, h5]
    · cases h0 : goAtoi (goTrim ((cells.getD 0 dCell).text)) with
      | none => simp only [extractAbilities, if_neg h5, h0]
      | some a =>
        cases h1 : goAtoi (goTrim ((cells.getD 1 dCell).text)) with
        | none => simp only [extractAbilities, if_neg h5, h0, h1]
        | some b =>
          cases h2 : goAtoi (goTrim ((cells.getD 2 dCell).text)) with
          | none => simp only [extractAbilities, if_neg h5, h0, h1, h2]
          | some i =>
            cases h3 : goAtoi (goTrim ((cells.getD 3 dCell).text)) with
            | none => simp only [extractAbilities, if_neg h5, h0, h1, h2, h3]
            | some p =>
              cases h4 : goAtoi (goTrim ((cells.getD 4 dCell).text)) with
              | none => simp only [extractAbilities, if_neg h5, h0, h1, h2, h3, h4]
              | some q =>
                by_cases ha : 0 < a
                · exfalso
                  apply hno
                  refine ⟨by omega, fun k hk => ?_, ?_⟩
                  · interval_cases k
                    · rw [h0]; rfl
                    · rw [h1]; rfl
                    · rw [h2]; rfl
                    · rw [h3]; rfl
                    · rw [h4]; rfl
                  · rw [h0]
                    exact ha
                · simp only [extractAbilities, if_neg h5, h0, h1, h2, h3, h4]
                  simp [ha]
  · intro t c h
    exact extractAbilitiesFromTable_inv t.rows c (Or.inl h)

/-- Witness for C2 at the three rows of the spec examples and a whole
    table. -/
theorem abilities_all_or_nothing_witness :
    extractAbilities char0 row120 =
      { char0 with Leadership := 120, Force := 95, Intelligence := 60,
                   Politics := 70, Charm := 80 }
    ∧ extractAbilities char0 rowZero = char0
    ∧ extractAbilities char0 rowBad = char0
    ∧ (allAbilitiesZero (extractAbilitiesFromTable char0 abilityTableEx) ∨
        0 < (extractAbilitiesFromTable char0 abilityTableEx).Leadership) := by
  refine ⟨?_,
    abilities_all_or_nothing.2.1 char0 rowZero (by decide),
    abilities_all_or_nothing.2.1 char0 rowBad (by decide),
    abilities_all_or_nothing.2.2 abilityTableEx char0 (by decide)⟩
  rw [abilities_all_or_nothing.1 char0 row120 (by decide)]
  decide

def c10prior : Character := { char0 with Loyalty := 7 }

/-- C10 counterexample: a one-cell row whose single cell is in the
    personality vocabulary with no parsable cell after it is left
    entirely unchanged (the function returns early on rows with fewer
    than two cells), so Personality is not updated as the claim states. -/
theorem personality_guard_counterexample :
    extractPersonalityAndLoyalty c10prior [mkCell "豪胆" ""] = c10prior
    ∧ goTrim (lit "豪胆") ∈ personalityTypes
    ∧ (extractPersonalityAndLoyalty c10prior [mkCell "豪胆" ""]).Personality = []
    ∧ goTrim (lit "豪胆") ≠ ([] : Str) := by
  refine ⟨by decide, by decide, by decide, by decide⟩

/-- C10 amended: extractPersonalityAndLoyalty modifies no field other
    than Personality and Loyalty; and on every row with at least two
    cells whose first vocabulary cell is followed by no integer-parsable
    cell, Personality is updated while Loyalty keeps its previous value
    (the pair is updated non-atomically). -/
theorem personality_loyalty_frame :
    (∀ c cells, ∃ p l, extractPersonalityAndLoyalty c cells =
      { c with Personality := p, Loyalty := l })
    ∧ (∀ (c : Character) (pre : List Cell) (cl : Cell) (post : List Cell),
      2 ≤ (pre ++ cl :: post).length →
      (∀ x ∈ pre, goTrim x.text ∉ personalityTypes) →
      goTrim cl.text ∈ personalityTypes →
      (∀ y ∈ post, goAtoi (goTrim y.text) = none) →
      extractPersonalityAndLoyalty c (pre ++ cl :: post) =
        { c with Personality := goTrim cl.text }) := by
  constructor
  · exact fun c cells => epl_shape c cells
  · intro c pre cl post hlen hpre hcl hpost
    unfold extractPersonalityAndLoyalty
    rw [if_neg (by omega)]
    exact persScan_first cl post hcl hpost pre hpre c

/-- Witness for C10: on the row 豪胆, x the personality is committed
    while a previous loyalty of 7 survives untouched. -/
theorem personality_loyalty_frame_witness :
    extractPersonalityAndLoyalty c10prior [mkCell "豪胆" "", mkCell "x" ""] =
      { c10prior with Personality := goTrim (lit "豪胆") }
    ∧ ({ c10prior with Personality := goTrim (lit "豪胆") }).Loyalty = 7 :=
  ⟨personality_loyalty_frame.2 c10prior [] (mkCell "豪胆" "") [mkCell "x" ""]
    (by decide) (by decide) (by decide) (by decide),
   by decide⟩

lemma foldl_tacticsSkills_fst (tables : List Table) :
    ∀ acc, (tables.foldl tacticsSkillsStep acc).1 =
      (lastTacticsTable tables).elim acc.1
        (fun u => extractFromSkillTable u isTacticCategory) := by
  induction tables with
  | nil => intro acc; rfl
  | cons t ts ih =>
    intro acc
    rw [List.foldl_cons, ih (tacticsSkillsStep acc t)]
    cases h : lastTacticsTable ts with
    | some u => simp [lastTacticsTable, h]
    | none =>
      by_cases h1 : containsAnyTexts t.text tacticsHeaders
      · simp [lastTacticsTable, h, h1, tacticsSkillsStep]
      · by_cases h2 : containsAnyTexts t.text skillsHeaders
        · simp [lastTacticsTable, h, h1, h2, tacticsSkillsStep]
        · simp [lastTacticsTable, h, h1, h2, tacticsSkillsStep]

lemma foldl_tacticsSkills_snd (tables : List Table) :
    ∀ acc, (tables.foldl tacticsSkillsStep acc).2 =
      (lastSkillsTable tables).elim acc.2
        (fun u => extractFromSkillTable u isSkillCategory) := by
  induction tables with
  | nil => intro acc; rfl
  | cons t ts ih =>
    intro acc
    rw [List.foldl_cons, ih (tacticsSkillsStep acc t)]
    cases h : lastSkillsTable ts with
    | some u => simp [lastSkillsTable, h]
    | none =>
      by_cases h1 : containsAnyTexts t.text tacticsHeaders
      · simp [lastSkillsTable, h, h1, tacticsSkillsStep]
      · by_cases h2 : containsAnyTexts t.text skillsHeaders
        · simp [lastSkillsTable, h, h1, h2, tacticsSkillsStep]
        · simp [lastSkillsTable, h, h1, h2, tacticsSkillsStep]

/-- C4 counterexample: two tables classified as tactics do not
    accumulate; only the cells of the second (last) table reach the
    output, while the claim predicts the join of both. -/
theorem tactics_accumulation_counterexample :
    extractTacticsAndSkills [tacticsTableA, tacticsTableB] = (lit "連弩", [])
    ∧ containsAnyTexts tacticsTableA.text tacticsHeaders = true
    ∧ containsAnyTexts tacticsTableB.text tacticsHeaders = true
    ∧ extractFromSkillTable tacticsTableA isTacticCategory = [lit "奮戦"]
    ∧ extractFromSkillTable tacticsTableB isTacticCategory = [lit "連弩"]
    ∧ lit "連弩" ≠ goJoin (lit ", ") [lit "奮戦", lit "連弩"] := by
  refine ⟨by decide, by decide, by decide, by decide, by decide, by decide⟩

/-- C4 amended: the Tactics output is the comma join of the cleaned
    70px-cell texts of the LAST table classified as tactics (document
    order); Skills symmetrically comes from the last table classified as
    skills; earlier same-category tables are overwritten, not
    accumulated. -/
theorem tactics_skills_last_table :
    ∀ tables, extractTacticsAndSkills tables =
      (goJoin (lit ", ") ((lastTacticsTable tables).elim []
          (fun u => extractFromSkillTable u isTacticCategory)),
       goJoin (lit ", ") ((lastSkillsTable tables).elim []
          (fun u => extractFromSkillTable u isSkillCategory))) := by
  intro tables
  have h1 := foldl_tacticsSkills_fst tables ([], [])
  have h2 := foldl_tacticsSkills_snd tables ([], [])
  simp only [extractTacticsAndSkills]
  rw [h1, h2]

lemma talentFallbackAlt_spec (tables : List Table) :
    ∀ c : Character, c.Talent = [] →
      (talentFallbackAlt c tables).Talent = (firstGoldTalent tables).getD [] := by
  induction tables with
  | nil =>
    intro c hc
    simpa [talentFallbackAlt, firstGoldTalent] using hc
  | cons t ts ih =>
    intro c hc
    cases hg : findGoldCell t.rows with
    | some s =>
      have hstep : extractTalentFromTableAlt c t = { c with Talent := goTrim s } := by
        simp [extractTalentFromTableAlt, hg]
      by_cases hs : goTrim s = []
      · have htal : (extractTalentFromTableAlt c t).Talent = [] := by
          rw [hstep]
          simpa using hs
        have hrec : talentFallbackAlt c (t :: ts) =
            talentFallbackAlt (extractTalentFromTableAlt c t) ts := by
          simp only [talentFallbackAlt]
          rw [if_neg (by simp [htal])]
        rw [hrec, ih _ htal]
        simp [firstGoldTalent, hg, hs]
      · have hrec : talentFallbackAlt c (t :: ts) = extractTalentFromTableAlt c t := by
          simp only [talentFallbackAlt]
          rw [if_pos (by rw [hstep]; simpa using hs)]
        rw [hrec, hstep]
        simp [firstGoldTalent, hg, hs]
    | none =>
      have hstep : extractTalentFromTableAlt c t = c := by
        simp [extractTalentFromTableAlt, hg]
      have hrec : talentFallbackAlt c (t :: ts) = talentFallbackAlt c ts := by
        simp only [talentFallbackAlt]
        rw [hstep, if_neg (by simp [hc])]
      rw [hrec, ih c hc]
      simp [firstGoldTalent, hg]

lemma talentFallback_spec (tables : List Table) :
    ∀ c : Character, c.Talent = [] →
      (talentFallback c tables).Talent = (firstGuardedGoldTalent tables).getD [] := by
  induction tables with
  | nil =>
    intro c hc
    simpa [talentFallback, firstGuardedGoldTalent] using hc
  | cons t ts ih =>
    intro c hc
    by_cases hguard : isTalentTable t
    · cases hg : findGoldCell t.rows with
      | some s =>
        have hstep : extractTalentFromTable c t = { c with Talent := goTrim s } := by
          simp [extractTalentFromTable, extractTalentFromTableAlt, hguard, hg]
        by_cases hs : goTrim s = []
        · have htal : (extractTalentFromTable c t).Talent = [] := by
            rw [hstep]
            simpa using hs
          have hrec : talentFallback c (t :: ts) =
              talentFallback (extractTalentFromTable c t) ts := by
            simp only [talentFallback]
            rw [if_neg (by simp [htal])]
          rw [hrec, ih _ htal]
          simp [firstGuardedGoldTalent, hguard, hg, hs]
        · have hrec : talentFallback c (t :: ts) = extractTalentFromTable c t := by
            simp only [talentFallback]
            rw [if_pos (by rw [hstep]; simpa using hs)]
          rw [hrec, hstep]
          simp [firstGuardedGoldTalent, hguard, hg, hs]
      | none =>
        have hstep : extractTalentFromTable c t = c := by
          simp [extractTalentFromTable, extractTalentFromTableAlt, hguard, hg]
        have hrec : talentFallback c (t :: ts) = talentFallback c ts := by
          simp only [talentFallback]
          rw [hstep, if_neg (by simp [hc])]
        rw [hrec, ih c hc]
        simp [firstGuardedGoldTalent, hguard, hg]
    · have hstep : extractTalentFromTable c t = c := by
        simp [extractTalentFromTable, hguard]
      have hrec : talentFallback c (t :: ts) = talentFallback c ts := by
        simp only [talentFallback]
        rw [hstep, if_neg (by simp [hc])]
      rw [hrec, ih c hc]
      simp [firstGuardedGoldTalent, hguard]

/-- C3 counterexample: a document whose only table holds a gold-styled
    cell but lacks the talent and effect keywords; the main.go pipeline
    leaves Talent empty because its fallback keeps the talent-table
    guard, while the claim demands the gold cell be found. -/
theorem talent_fallback_guard_counterexample :
    (extractFromTables char0 [tGold]).Talent = []
    ∧ findGoldCell tGold.rows = some (lit "王佐")
    ∧ containsAnyTexts tGold.text talentHeaders = false
    ∧ isTalentTable tGold = false
    ∧ lit "王佐" ≠ ([] : Str) := by
  refine ⟨by decide, by decide, by decide, by decide, by decide⟩

/-- C3 amended: starting from an empty Talent, the part_000 fallback
    sets Talent from the first table whose leading gold-styled cell has
    non-empty trimmed text, regardless of the table keywords, while the
    main.go fallback applies the talent-table guard to every attempt, so
    only tables containing both 奇才 and 効果 can supply Talent; the
    fallback pass itself runs exactly when the classified pass left
    Talent empty. -/
theorem talent_fallback_variants :
    ∀ (c : Character) (tables : List Table), c.Talent = [] →
      (talentFallbackAlt c tables).Talent = (firstGoldTalent tables).getD []
      ∧ (talentFallback c tables).Talent = (firstGuardedGoldTalent tables).getD []
      ∧ ((tables.foldl tablesStep c).Talent = [] →
          extractFromTables c tables = talentFallback (tables.foldl tablesStep c) tables) := by
  intro c tables hc
  refine ⟨talentFallbackAlt_spec tables c hc, talentFallback_spec tables c hc, ?_⟩
  intro h
  simp only [extractFromTables]
  rw [if_pos h]

/-- Witness for C3 at the concrete gold-cell document: the part_000
    fallback finds 王佐, the main.go fallback finds nothing. -/
theorem talent_fallback_variants_witness :
    (talentFallbackAlt char0 [tGold]).Talent = (firstGoldTalent [tGold]).getD []
    ∧ (talentFallback char0 [tGold]).Talent = (firstGuardedGoldTalent [tGold]).getD []
    ∧ (firstGoldTalent [tGold]).getD [] = lit "王佐"
    ∧ (firstGuardedGoldTalent [tGold]).getD [] = [] := by
  obtain ⟨h1, h2, _⟩ := talent_fallback_variants char0 [tGold] rfl
  exact ⟨h1, h2, by decide, by decide⟩

lemma lit_lparen : lit "(" = ['('] := rfl

lemma lit_rparen : lit ")" = [')'] := rfl

lemma goContains_single (s : Str) (c : Char) : goContains s [c] = true ↔ c ∈ s := by
  induction s with
  | nil => simp [goContains]
  | cons x t ih =>
    simp [goContains, List.isPrefixOf, ih, List.mem_cons]

lemma goCut_not_mem (s : Str) (c : Char) (h : c ∉ s) : goCut s c = (s, [], false) := by
  induction s with
  | nil => rfl
  | cons x t ih =>
    have hx : x ≠ c := fun he => h (by simp [he])
    simp [goCut, hx, ih (fun hm => h (by simp [hm]))]

lemma goCut_cons_ne (x : Char) (t : Str) (sep : Char) (h : x ≠ sep) :
    goCut (x :: t) sep =
      (x :: (goCut t sep).1, (goCut t sep).2.1, (goCut t sep).2.2) := by
  simp [goCut, h]

lemma goCut_append (n m : Str) (c : Char) (h : c ∉ n) :
    goCut (n ++ c :: m) c = (n, m, true) := by
  induction n with
  | nil => simp [goCut]
  | cons x t ih =>
    have hx : x ≠ c := fun he => h (by simp [he])
    simp [goCut, hx, ih (fun hm => h (by simp [hm]))]

lemma goCut_append_left (n m : Str) (c : Char) (h : c ∉ n) :
    goCut (n ++ m) c =
      (n ++ (goCut m c).1, (goCut m c).2.1, (goCut m c).2.2) := by
  induction n with
  | nil => simp
  | cons x t ih =>
    have hx : x ≠ c := fun he => h (by simp [he])
    simp [goCut, hx, ih (fun hm => h (by simp [hm]))]

lemma goCut_sound (s : Str) (c : Char) :
    (goCut s c).2.2 = true → s = (goCut s c).1 ++ c :: (goCut s c).2.1 := by
  induction s with
  | nil =>
    intro h
    simp [goCut] at h
  | cons x t ih =>
    by_cases hx : x = c
    · intro _
      subst hx
      simp [goCut]
    · intro h
      rw [goCut_cons_ne x t c hx] at h ⊢
      simp only [List.cons_append] at h ⊢
      simp only [List.cons.injEq, true_and]
      exact ih h

lemma goSplit_ne_nil (s : Str) (c : Char) : goSplit s c ≠ [] := by
  induction s with
  | nil => simp [goSplit]
  | cons x t ih =>
    by_cases hx : x = c
    · simp [goSplit, hx]
    · simp only [goSplit, if_neg hx]
      cases hgs : goSplit t c with
      | nil => exact absurd hgs ih
      | cons a l => simp

lemma goSplit_append (n m : Str) (c : Char) (h : c ∉ n) :
    goSplit (n ++ c :: m) c = n :: goSplit m c := by
  induction n with
  | nil => simp [goSplit]
  | cons x t ih =>
    have hx : x ≠ c := fun he => h (by simp [he])
    have iht := ih (fun hm => h (by simp [hm]))
    simp [goSplit, hx, iht]

lemma goSplit_head (s : Str) (c : Char) :
    (goSplit s c).getD 0 [] = (goCut s c).1 := by
  induction s with
  | nil => rfl
  | cons x t ih =>
    by_cases hx : x = c
    · simp [goSplit, goCut, hx]
    · simp only [goSplit, goCut, if_neg hx]
      cases hgs : goSplit t c with
      | nil => exact absurd hgs (goSplit_ne_nil t c)
      | cons a l =>
        rw [hgs] at ih
        simp only [List.getD_cons_zero] at ih ⊢
        rw [ih]

/-- C6 counterexample: on the text a)b(c, whose only right paren comes
    before the first left paren, the two-cut variant of main.go leaves
    both fields empty while the split variant of part_000 commits
    Name = a)b and Reading = c, so the two strategies are not
    observationally equivalent. -/
theorem name_reading_variants_counterexample :
    extractNameAndReading char0 (lit "a)b(c") = char0
    ∧ extractNameAndReadingAlt char0 (lit "a)b(c") =
      { char0 with Name := lit "a)b", Reading := lit "c" }
    ∧ lit "a)b" ≠ ([] : Str) := by
  refine ⟨by decide, by decide, by decide⟩

/-- C6 amended: the two parsing strategies agree on every text lacking a
    left paren, on every text lacking a right paren (both leave the
    record unchanged) and on every text of the form n ( r ) s in which n
    holds no left paren and r holds no paren at all (both assign
    Name = trim n and Reading = trim r); they are not equivalent in
    general, diverging when every right paren precedes the first left
    paren or when a second left paren occurs before the closing right
    paren. -/
theorem name_reading_variants_agreement :
    (∀ (c : Character) (t : Str), goContains t (lit "(") = false →
      extractNameAndReading c t = c ∧ extractNameAndReadingAlt c t = c)
    ∧ (∀ (c : Character) (t : Str), goContains t (lit ")") = false →
      extractNameAndReading c t = c ∧ extractNameAndReadingAlt c t = c)
    ∧ (∀ (c : Character) (n r s : Str), '(' ∉ n → '(' ∉ r → ')' ∉ r →
      extractNameAndReading c (n ++ '(' :: (r ++ ')' :: s)) =
        { c with Name := goTrim n, Reading := goTrim r }
      ∧ extractNameAndReadingAlt c (n ++ '(' :: (r ++ ')' :: s)) =
        { c with Name := goTrim n, Reading := goTrim r }) := by
  refine ⟨?_, ?_, ?_⟩
  · intro c t h
    rw [lit_lparen] at h
    have hmem : '(' ∉ t := fun hm => by
      rw [(goContains_single t '(').mpr hm] at h
      cases h
    constructor
    · simp [extractNameAndReading, goCut_not_mem t '(' hmem]
    · simp [extractNameAndReadingAlt, lit_lparen, h]
  · intro c t h
    rw [lit_rparen] at h
    have hmem : ')' ∉ t := fun hm => by
      rw [(goContains_single t ')').mpr hm] at h
      cases h
    constructor
    · cases hf : (goCut t '(').2.2 with
      | false => simp [extractNameAndReading, hf]
      | true =>
        have hsound := goCut_sound t '(' hf
        have ha : ')' ∉ (goCut t '(').2.1 := by
          intro hm
          apply hmem
          rw [hsound]
          simp [hm]
        simp [extractNameAndReading, hf, goCut_not_mem _ _ ha]
    · simp [extractNameAndReadingAlt, lit_rparen, h]
  · intro c n r s hn hr hr2
    have h1 : goCut (n ++ '(' :: (r ++ ')' :: s)) '(' = (n, r ++ ')' :: s, true) :=
      goCut_append n (r ++ ')' :: s) '(' hn
    have h2 : goCut (r ++ ')' :: s) ')' = (r, s, true) :=
      goCut_append r s ')' hr2
    constructor
    · simp [extractNameAndReading, h1, h2]
    · have hc1 : goContains (n ++ '(' :: (r ++ ')' :: s)) ['('] = true :=
        (goContains_single _ '(').mpr (by simp)
      have hc2 : goContains (n ++ '(' :: (r ++ ')' :: s)) [')'] = true :=
        (goContains_single _ ')').mpr (by simp)
      have hsplit : goSplit (n ++ '(' :: (r ++ ')' :: s)) '(' =
          n :: goSplit (r ++ ')' :: s) '(' := goSplit_append n _ '(' hn
      obtain ⟨p1, ps, hps⟩ : ∃ p1 ps, goSplit (r ++ ')' :: s) '(' = p1 :: ps := by
        cases hgs : goSplit (r ++ ')' :: s) '(' with
        | nil => exact absurd hgs (goSplit_ne_nil _ _)
        | cons a l => exact ⟨a, l, rfl⟩
      have hp1 : p1 = r ++ ')' :: (goCut s '(').1 := by
        have hh := goSplit_head (r ++ ')' :: s) '('
        rw [hps, List.getD_cons_zero] at hh
        rw [hh, goCut_append_left r (')' :: s) '(' hr,
          goCut_cons_ne ')' s '(' (by decide)]
      have hreading : (goSplit (r ++ ')' :: (goCut s '(').1) ')').getD 0 [] = r := by
        rw [goSplit_head, goCut_append r ((goCut s '(').1) ')' hr2]
      have hlen : ¬ (goSplit (n ++ '(' :: (r ++ ')' :: s)) '(').length < 2 := by
        rw [hsplit, hps]
        simp
      simp only [extractNameAndReadingAlt, lit_lparen, lit_rparen]
      rw [if_neg (by simp [hc1, hc2]), if_neg hlen, hsplit, hps]
      simp only [List.getD_cons_zero, List.getD_cons_succ]
      rw [hp1, hreading]

/-- Witness for C6 on the well-formed text 張飛(ちょうひ): both variants
    assign the same name and reading. -/
theorem name_reading_variants_agreement_witness :
    extractNameAndReading char0 (lit "張飛" ++ '(' :: (lit "ちょうひ" ++ ')' :: [])) =
      { char0 with Name := goTrim (lit "張飛"), Reading := goTrim (lit "ちょうひ") }
    ∧ extractNameAndReadingAlt char0 (lit "張飛" ++ '(' :: (lit "ちょうひ" ++ ')' :: [])) =
      { char0 with Name := goTrim (lit "張飛"), Reading := goTrim (lit "ちょうひ") } :=
  name_reading_variants_agreement.2.2 char0 (lit "張飛") (lit "ちょうひ") []
    (by decide) (by decide) (by decide)
